import Mathlib

/-!
# Verification of the markdown-pdf converter (`src/index.ts`)

A shallow embedding of the program's pure core, working over `List Char`
(the character content of JavaScript strings).  File-system reads, the
headless browser and the interactive prompt are modelled explicitly: the
file system as a partial map from paths to bytes, the browser as an event
trace with failure injection, and the prompt as a function of the answer
line.  Definitions mirror the TypeScript source; line numbers in the doc
comments refer to `src/index.ts`.
-/

namespace MarkdownPdf

/-! ## Generic string primitives (JS string semantics over `List Char`) -/

/-- JS regex `.` without the `s` flag: any character except a line terminator. -/
def jsDot (c : Char) : Bool :=
  c ≠ '\n' && c ≠ '\r' && c ≠ '\u2028' && c ≠ '\u2029'

/-- ASCII uppercasing, the fragment of JS `toUpperCase` exercised by format flags. -/
def asciiUpper (c : Char) : Char :=
  if 'a' ≤ c && c ≤ 'z' then Char.ofNat (c.toNat - 32) else c

/-- ASCII lowercasing, the fragment of JS `toLowerCase` exercised by format names. -/
def asciiLower (c : Char) : Char :=
  if 'A' ≤ c && c ≤ 'Z' then Char.ofNat (c.toNat + 32) else c

/-- JS whitespace for `trim` (ASCII fragment). -/
def jsWs (c : Char) : Bool :=
  c = ' ' || c = '\t' || c = '\n' || c = '\r'

/-- JS `String.prototype.trim` (ASCII whitespace fragment). -/
def jsTrim (s : List Char) : List Char :=
  ((s.dropWhile jsWs).reverse.dropWhile jsWs).reverse

/-- Does `suf` end the string `s` (JS `endsWith`)? -/
def endsWithChars (suf s : List Char) : Bool :=
  suf.reverse.isPrefixOf s.reverse

/-- Index of the first occurrence of `pat` in `s` (JS `indexOf`), if any. -/
def firstOccIdx (pat : List Char) : List Char → Option Nat
  | [] => if pat.isPrefixOf [] then some 0 else none
  | c :: rest =>
    if pat.isPrefixOf (c :: rest) then some 0
    else (firstOccIdx pat rest).map (· + 1)

/-- JS `String.prototype.replace` with a plain-string pattern: replace the
first occurrence only (the replacement strings used here contain no `$`). -/
def jsReplaceFirst (s pat rep : List Char) : List Char :=
  match firstOccIdx pat s with
  | some i => s.take i ++ rep ++ s.drop (i + pat.length)
  | none => s

/-- The part of `arg` between the first `=` and the following `=` or the end;
this is `arg.split("=")[1]` for a string containing at least one `=`. -/
def splitEqSecond (arg : List Char) : List Char :=
  ((arg.dropWhile (fun c => c ≠ '=')).drop 1).takeWhile (fun c => c ≠ '=')

/-! ## Base64 (Node `Buffer.prototype.toString("base64")`) -/

def b64Alphabet : List Char :=
  "ABCDEFGHIJKLMNOPQRSTUVWXYZabcdefghijklmnopqrstuvwxyz0123456789+/".data

def b64Char (n : Nat) : Char := b64Alphabet.getD n '?'

/-- RFC 4648 base64 with padding, as produced by Node for a byte buffer. -/
def b64Encode : List Nat → List Char
  | [] => []
  | [b1] => [b64Char (b1 / 4), b64Char (b1 % 4 * 16), '=', '=']
  | [b1, b2] => [b64Char (b1 / 4), b64Char (b1 % 4 * 16 + b2 / 16), b64Char (b2 % 16 * 4), '=']
  | b1 :: b2 :: b3 :: rest =>
    b64Char (b1 / 4) :: b64Char (b1 % 4 * 16 + b2 / 16) ::
      b64Char (b2 % 16 * 4 + b3 / 64) :: b64Char (b3 % 64) :: b64Encode rest

/-! ## Paths (Node posix `path.resolve` / `path.extname` / `path.join`) -/

/-- Split a path into its `/`-separated segments. -/
def splitSlash : List Char → List (List Char)
  | [] => [[]]
  | c :: cs =>
    if c = '/' then [] :: splitSlash cs
    else
      match splitSlash cs with
      | [] => [[c]]
      | s :: t => (c :: s) :: t

/-- Rejoin segments with `/`. -/
def joinSlash : List (List Char) → List Char
  | [] => []
  | [s] => s
  | s :: rest => s ++ '/' :: joinSlash rest

/-- One step of posix path normalization: drop empty and `.` segments,
let `..` pop the previous segment, keep everything else. -/
def resolveStep (stack : List (List Char)) (seg : List Char) : List (List Char) :=
  if seg = [] then stack
  else if seg = ['.'] then stack
  else if seg = ['.', '.'] then stack.dropLast
  else stack ++ [seg]

/-- Node posix `path.resolve(dir, p)` for an absolute `dir` and relative `p`:
concatenate and normalize.  (The program always calls it with the absolute
`INPUT_DIR` and a `./…` relative image path.) -/
def pathResolve (dir p : List Char) : List Char :=
  '/' :: joinSlash ((splitSlash (dir ++ '/' :: p)).foldl resolveStep [])

/-- The part of a path after its last `/`. -/
def basenameChars (p : List Char) : List Char := (splitSlash p).getLastD []

/-- The last `/`-separated segment of a path. -/
def lastSegment (p : List Char) : List Char := (splitSlash p).getLastD []

/-- Node posix `path.extname`: the suffix of the basename from its last dot;
empty when the basename has no dot or its only dot is the leading character.
(Modelled for basenames that are not entirely made of dots, which are the
only ones this program ever produces.) -/
def extnameChars (p : List Char) : List Char :=
  let b := basenameChars p
  let revAfterDot := b.reverse.takeWhile (fun c => c ≠ '.')
  if revAfterDot.length = b.length then []
  else if b.length = revAfterDot.length + 1 then []
  else '.' :: revAfterDot.reverse

/-- `path.extname(p).slice(1)`. -/
def extSliceChars (p : List Char) : List Char := (extnameChars p).drop 1

/-! ## The file system and `imageToBase64` (lines 36-46) -/

/-- The file system seen by `fs.readFileSync`: a partial map from a path to
the file's bytes; `none` models a read that throws (missing or unreadable). -/
def FileSys : Type := List Char → Option (List Nat)

/-- `fs.readFileSync(p)`: the bytes, or a thrown error. -/
def readFileSync (fsys : FileSys) (p : List Char) : Except Unit (List Nat) :=
  match fsys p with
  | some bytes => Except.ok bytes
  | none => Except.error ()

/-- `imageToBase64` (lines 36-46): read the file and build a
`data:<mime>;base64,<payload>` URI, aliasing `jpg` to the `jpeg` media type;
the `catch` block turns any read error into `null` (here `none`). -/
def imageToBase64 (fsys : FileSys) (imgPath : List Char) : Option (List Char) :=
  match readFileSync fsys imgPath with
  | Except.ok imgBuffer =>
    let ext := extSliceChars imgPath
    let mimeType := "image/".data ++ (if ext = "jpg".data then "jpeg".data else ext)
    some ("data:".data ++ mimeType ++ ";base64,".data ++ b64Encode imgBuffer)
  | Except.error _ => none

/-- The `jpg → jpeg` media-type aliasing applied to a path's extension. -/
def mimeExt (p : List Char) : List Char :=
  if extSliceChars p = "jpg".data then "jpeg".data else extSliceChars p

/-! ## The image regex `/!\[.*?\]\((\.\/.*?\.(png|jpg|jpeg|gif|svg))\)/g`
(line 193), as a backtracking matcher specialised to this pattern. -/

/-- The extension alternatives of capture group 2, in source order. -/
def extAlts : List (List Char) :=
  ["png".data, "jpg".data, "jpeg".data, "gif".data, "svg".data]

/-- Match `\.(png|jpg|jpeg|gif|svg)\)` at the head of `cs`: the extension and
the remainder after the closing parenthesis. -/
def tryMatchExtParen (cs : List Char) : Option (List Char × List Char) :=
  if ".png)".data.isPrefixOf cs then some ("png".data, cs.drop 5)
  else if ".jpg)".data.isPrefixOf cs then some ("jpg".data, cs.drop 5)
  else if ".jpeg)".data.isPrefixOf cs then some ("jpeg".data, cs.drop 6)
  else if ".gif)".data.isPrefixOf cs then some ("gif".data, cs.drop 5)
  else if ".svg)".data.isPrefixOf cs then some ("svg".data, cs.drop 5)
  else none

/-- The lazy `.*?\.(…)\)` tail of the path: at each position first try the
extension pattern, otherwise consume one `.`-matchable character.  `acc`
holds the consumed path prefix, reversed.  Returns the full capture group 1
(`acc.reverse ++ consumed ++ "." ++ ext`), the extension, and the rest. -/
def tryMatchPath : List Char → List Char → Option (List Char × List Char × List Char)
  | cs, acc =>
    match tryMatchExtParen cs with
    | some (ext, rest) => some (acc.reverse ++ '.' :: ext, ext, rest)
    | none =>
      match cs with
      | [] => none
      | c :: cs' => if jsDot c then tryMatchPath cs' (c :: acc) else none

/-- Match `\]\(\.\/` followed by the lazy path tail. -/
def tryMatchAfterAlt (cs : List Char) : Option (List Char × List Char × List Char) :=
  match cs with
  | ']' :: '(' :: '.' :: '/' :: cs' => tryMatchPath cs' ['/', '.']
  | _ => none

/-- The lazy `.*?` alt text: at each position first try the `](./…)` tail
(this is exactly the regex engine's backtracking order), otherwise consume
one `.`-matchable character into the alt. -/
def tryMatchAlt : List Char → List Char →
    Option (List Char × List Char × List Char × List Char)
  | cs, acc =>
    match tryMatchAfterAlt cs with
    | some (path, ext, rest) => some (acc.reverse, path, ext, rest)
    | none =>
      match cs with
      | [] => none
      | c :: cs' => if jsDot c then tryMatchAlt cs' (c :: acc) else none

/-- Try to match the whole image regex at the start of `cs`; on success
returns `(alt, path, ext, rest)` where `rest` follows the match. -/
def tryMatchAt (cs : List Char) : Option (List Char × List Char × List Char × List Char) :=
  match cs with
  | '!' :: '[' :: cs' => tryMatchAlt cs' []
  | _ => none

/-- The full text matched by the regex for a given alt and path: `![alt](path)`. -/
def matchChars (alt path : List Char) : List Char :=
  '!' :: '[' :: alt ++ ']' :: '(' :: path ++ [')']

/-! ## The inlining pass (lines 195-203) -/

/-- The replacement callback of `markdown.replace(regex, (match, imgPath) => …)`:
resolve `imgPath` against the input directory, try to inline it; on success
substitute the data URI for the first occurrence of `imgPath` inside the
matched text, on failure keep the match unchanged. -/
def inlineReplacer (fsys : FileSys) (inputDir : List Char) (mtch imgPath : List Char) :
    List Char :=
  let absolutePath := pathResolve inputDir imgPath
  match imageToBase64 fsys absolutePath with
  | some base64 => jsReplaceFirst mtch imgPath base64
  | none => mtch

/-- The global-regex replacement scan: find the leftmost match, emit the
callback's output, continue after the match; characters outside matches are
copied verbatim.  Fuel-indexed so the kernel can evaluate it; any
`fuel ≥ cs.length` gives the same result (each step consumes at least one
character), and the wrapper below passes `cs.length`. -/
def inlineScanF (fsys : FileSys) (dir : List Char) : Nat → List Char → List Char
  | 0, cs => cs
  | fuel + 1, cs =>
    match tryMatchAt cs with
    | some (alt, path, _ext, rest) =>
      inlineReplacer fsys dir (matchChars alt path) path ++ inlineScanF fsys dir fuel rest
    | none =>
      match cs with
      | [] => []
      | c :: cs' => c :: inlineScanF fsys dir fuel cs'

/-- The image-inlining pass of `convertMarkdownToPdf` (lines 192-203). -/
def inlineLocalImages (fsys : FileSys) (inputDir markdown : String) : String :=
  String.mk (inlineScanF fsys inputDir.data markdown.data.length markdown.data)

/-! ## A chunk view of the same scan, for stating frame properties -/

/-- A piece of the scanned document: a literal character copied verbatim, or
one matched image reference. -/
inductive MdChunk where
  | lit (c : Char)
  | img (alt path ext : List Char)
deriving DecidableEq

/-- The decomposition of a document produced by the same scan as
`inlineScanF` (same fuel discipline, same matcher). -/
def scanChunksF : Nat → List Char → List MdChunk
  | 0, cs => cs.map MdChunk.lit
  | fuel + 1, cs =>
    match tryMatchAt cs with
    | some (alt, path, ext, rest) => MdChunk.img alt path ext :: scanChunksF fuel rest
    | none =>
      match cs with
      | [] => []
      | c :: cs' => MdChunk.lit c :: scanChunksF fuel cs'

/-- A chunk rendered as it appeared in the input. -/
def chunkOrig : MdChunk → List Char
  | .lit c => [c]
  | .img alt path _ => matchChars alt path

/-- A chunk rendered as the inliner outputs it; each chunk is processed
independently of its siblings. -/
def chunkOut (fsys : FileSys) (dir : List Char) : MdChunk → List Char
  | .lit c => [c]
  | .img alt path _ => inlineReplacer fsys dir (matchChars alt path) path

/-- Concatenate the rendering of every chunk. -/
def chunksJoin (f : MdChunk → List Char) (l : List MdChunk) : List Char :=
  l.foldr (fun ch acc => f ch ++ acc) []

/-- Is a chunk a literal character (copied verbatim by the scan)? -/
def MdChunk.isLit : MdChunk → Bool
  | .lit _ => true
  | .img _ _ _ => false


/-! ## Paper formats and their configuration table (lines 9-33) -/

/-- The `PaperFormat` union type (line 9). -/
inductive PaperFormat where
  | A2
  | A3
  | A4
  | A5
deriving DecidableEq

/-- One entry of the `formatConfigs` table. -/
structure FormatConfig where
  margin : String
  fontSize : String
  description : String
deriving DecidableEq

/-- `formatConfigs` (lines 12-33). -/
def formatConfigs : PaperFormat → FormatConfig
  | .A2 => { margin := "25mm", fontSize := "14px", description := "A2 (420×594 mm) - Extra grande" }
  | .A3 => { margin := "20mm", fontSize := "13px", description := "A3 (297×420 mm) - Grande" }
  | .A4 => { margin := "20mm", fontSize := "12px", description := "A4 (210×297 mm) - Padrão" }
  | .A5 => { margin := "15mm", fontSize := "11px", description := "A5 (148×210 mm) - Compacto" }

/-- The name of a format as it appears in source strings. -/
def formatName : PaperFormat → String
  | .A2 => "A2"
  | .A3 => "A3"
  | .A4 => "A4"
  | .A5 => "A5"

/-- `format.toLowerCase()`. -/
def formatLower (format : PaperFormat) : String :=
  String.mk ((formatName format).data.map asciiLower)

/-! ## Output filename derivation (lines 176-181) -/

/-- `fileName.replace(/\.md$/, repl)`: the regex matches exactly when the
name ends in `.md`, and then replaces that three-character suffix. -/
def replaceMdSuffix (s repl : List Char) : List Char :=
  if endsWithChars ".md".data s then s.take (s.length - 3) ++ repl else s

/-- The derived output filename: `fileName.replace(/\.md$/, "." + format.toLowerCase() + ".pdf")`. -/
def outputFileNameFor (fileName : String) (format : PaperFormat) : String :=
  String.mk (replaceMdSuffix fileName.data ('.' :: (formatLower format).data ++ ".pdf".data))

/-! ## Output-directory cleanup, `cleanOutputDir` (lines 49-83) -/

/-- Result of the cleanup sweep: whether the directory was freshly created,
the directory contents afterwards, and the count of removed files. -/
structure CleanResult where
  createdDir : Bool
  remaining : List String
  removedCount : Nat
deriving DecidableEq

/-- `cleanOutputDir` (lines 49-83).  `dirExists`/`files` model
`fs.existsSync(OUTPUT_DIR)` and `fs.readdirSync(OUTPUT_DIR)`; `unlinkFails f`
models `fs.unlinkSync` throwing for `f` (that error is caught, logged and the
`forEach` sweep continues with the next file). -/
def cleanOutputDir (dirExists : Bool) (files : List String) (unlinkFails : String → Bool) :
    CleanResult :=
  if !dirExists then { createdDir := true, remaining := [], removedCount := 0 }
  else
    let pdfFiles := files.filter (fun f => endsWithChars ".pdf".data f.data)
    if pdfFiles.length = 0 then
      { createdDir := false, remaining := files, removedCount := 0 }
    else
      let swept := pdfFiles.foldl
        (fun (acc : List String × Nat) file =>
          if unlinkFails file then acc else (acc.1 ++ [file], acc.2 + 1))
        ([], 0)
      { createdDir := false
        remaining := files.filter (fun f => !swept.1.contains f)
        removedCount := swept.2 }

/-! ## Command-line format selection (lines 86-143, 449-463) -/

/-- `Object.keys(formatConfigs)` (line 132). -/
def validFormatKeys : List String := ["A2", "A3", "A4", "A5"]

/-- A format key as a `PaperFormat`. -/
def formatOfKey (s : String) : Option PaperFormat :=
  if s = "A2" then some .A2
  else if s = "A3" then some .A3
  else if s = "A4" then some .A4
  else if s = "A5" then some .A5
  else none

/-- `getFormatFromArgs` (lines 126-143) over `process.argv.slice(2)`.  The
second component records whether the invalid-format warning was logged. -/
def getFormatFromArgs (args : List String) : Option PaperFormat × Bool :=
  match args.find? (fun arg => "--format=".data.isPrefixOf arg.data) with
  | none => (none, false)
  | some formatArg =>
    let format := String.mk ((splitEqSecond formatArg.data).map asciiUpper)
    if validFormatKeys.contains format then (formatOfKey format, false)
    else (none, true)

/-- `promptForFormat` (lines 86-123) as a function of the answer line typed at
the prompt; the second component records the invalid-option warning, in which
case A4 is used as the default. -/
def promptForFormat (answer : String) : PaperFormat × Bool :=
  let choice := if jsTrim answer.data = [] then "3".data else jsTrim answer.data
  if choice = "1".data then (.A2, false)
  else if choice = "2".data then (.A3, false)
  else if choice = "3".data then (.A4, false)
  else if choice = "4".data then (.A5, false)
  else (.A4, true)

/-- `process.argv.includes("--help") || process.argv.includes("-h")` (line 453);
the two argv elements dropped by `slice(2)` are the runtime and script paths,
which are not flags, so the check is taken over the same `args` list. -/
def helpRequested (args : List String) : Bool :=
  args.contains "--help" || args.contains "-h"

/-- What the format-selection phase of `main` (lines 449-463) does. -/
inductive MainOutcome where
  | helpShown
  | proceeding (format : PaperFormat) (loggedInvalidFormat : Bool)
deriving DecidableEq

/-- The format-selection phase of `main`: `--help`/`-h` print usage and return
before any format parsing; otherwise the argument format is used when valid,
and the interactive prompt decides when it is absent or invalid. -/
def mainFormatPhase (args : List String) (answer : String) : MainOutcome :=
  if helpRequested args then .helpShown
  else
    match getFormatFromArgs args with
    | (some f, w) => .proceeding f w
    | (none, w) => .proceeding (promptForFormat answer).1 w

/-! ## The HTML template (lines 208-418) -/

/-- The `@page` body of the template (lines 215-216): the page-size directive
in portrait orientation and the format margin, exactly as interpolated. -/
def pageSizeMarginDirective (format : PaperFormat) : String :=
  "size: " ++ formatName format ++ " portrait;\n            margin: "
    ++ (formatConfigs format).margin ++ ";"

/-- The template text preceding the page-size directive (lines 208-214). -/
def htmlTemplateBefore (format : PaperFormat) : String :=
  "\n    <html>\n      <head>\n        <meta charset=\"UTF-8\">\n        <style>\n          /* Configurações para formato "
    ++ formatName format
    ++ " retrato */\n          @page \x7b\n            "

/-- The template text following the page-size directive (lines 217-418),
closed by the parsed body and the closing tags. -/
def htmlTemplateAfter (format : PaperFormat) (htmlContent : String) : String :=
  "\n          \x7d\n          \n          body \x7b \n            font-family: 'Segoe UI', Tahoma, Geneva, Verdana, sans-serif; \n            line-height: 1.6;\n            color: #333;\n            font-size: "
    ++ (formatConfigs format).fontSize
    ++ ";\n            padding: 0;\n            margin: 0;\n            max-width: none;\n          \x7d\n          \n          /* Títulos com quebras de página controladas */\n          h1, h2, h3, h4, h5, h6 \x7b \n            page-break-after: avoid;\n            color: #2c3e50;\n            margin-top: 1.5em;\n            margin-bottom: 0.8em;\n            line-height: 1.3;\n          \x7d\n          \n          h1 \x7b \n            font-size: 2.8em; \n            border-bottom: 3px solid #3498db; \n            padding-bottom: 10px;\n            margin-bottom: 1.2em;\n            page-break-before: auto;\n          \x7d\n          \n          h2 \x7b \n            font-size: 2.2em; \n            color: #3498db; \n            border-bottom: 2px solid #ecf0f1;\n            padding-bottom: 8px;\n            page-break-before: avoid;\n          \x7d\n          \n          h3 \x7b \n            font-size: 1.8em; \n            color: #34495e;\n            page-break-before: avoid;\n          \x7d\n          \n          h4 \x7b \n            font-size: 1.4em; \n            color: #7f8c8d;\n          \x7d\n          \n          /* Parágrafos */\n          p \x7b\n            margin: 1em 0;\n            text-align: justify;\n          \x7d\n          \n          /* Código com melhor formatação */\n          pre \x7b \n            background: #2c3e50; \n            color: #ecf0f1;\n            padding: 20px; \n            overflow-x: auto; \n            border-radius: 5px;\n            margin: 1.5em 0;\n            font-family: 'Courier New', Monaco, monospace;\n            font-size: "
    ++ (if format = PaperFormat.A5 then "10px" else "12px")
    ++ ";\n            line-height: 1.4;\n            page-break-inside: avoid;\n            box-shadow: 0 2px 8px rgba(0,0,0,0.1);\n          \x7d\n          \n          code \x7b \n            background: #ecf0f1; \n            padding: 3px 6px; \n            border-radius: 3px;\n            font-family: 'Courier New', Monaco, monospace;\n            color: #e74c3c;\n            font-size: "
    ++ (if format = PaperFormat.A5 then "10px" else "11px")
    ++ ";\n          \x7d\n          \n          pre code \x7b\n            background: none;\n            color: #ecf0f1;\n            padding: 0;\n            font-size: "
    ++ (if format = PaperFormat.A5 then "10px" else "12px")
    ++ ";\n          \x7d\n          \n          /* Imagens responsivas */\n          img \x7b \n            max-width: 100%;\n            height: auto;\n            display: block;\n            margin: 1.5em auto;\n            box-shadow: 0 4px 12px rgba(0,0,0,0.15);\n            border-radius: 8px;\n            page-break-inside: avoid;\n          \x7d\n          \n          /* Citações */\n          blockquote \x7b\n            border-left: 4px solid #3498db;\n            margin: 1.5em 0;\n            font-style: italic;\n            background: #f8f9fa;\n            padding: 20px;\n            border-radius: 0 8px 8px 0;\n            font-size: "
    ++ (formatConfigs format).fontSize
    ++ ";\n            page-break-inside: avoid;\n            box-shadow: 0 2px 6px rgba(0,0,0,0.1);\n          \x7d\n          \n          /* Tabelas */\n          table \x7b\n            border-collapse: collapse;\n            width: 100%;\n            margin: 1.5em 0;\n            font-size: "
    ++ (if format = PaperFormat.A5 then "10px" else "11px")
    ++ ";\n            page-break-inside: avoid;\n            box-shadow: 0 2px 8px rgba(0,0,0,0.1);\n          \x7d\n          \n          table th, table td \x7b\n            border: 1px solid #ddd;\n            padding: "
    ++ (if format = PaperFormat.A5 then "8px 10px" else "12px 15px")
    ++ ";\n            text-align: left;\n            vertical-align: top;\n          \x7d\n          \n          table th \x7b\n            background: linear-gradient(135deg, #3498db, #2980b9);\n            color: white;\n            font-weight: bold;\n            font-size: "
    ++ (if format = PaperFormat.A5 then "11px" else "12px")
    ++ ";\n          \x7d\n          \n          table tr:nth-child(even) \x7b\n            background-color: #f8f9fa;\n          \x7d\n          \n          table tr:hover \x7b\n            background-color: #e8f4f8;\n          \x7d\n          \n          /* Listas */\n          ul, ol \x7b \n            margin: 1em 0; \n            padding-left: 2em;\n          \x7d\n          \n          li \x7b \n            margin: 0.5em 0;\n            font-size: "
    ++ (formatConfigs format).fontSize
    ++ ";\n          \x7d\n          \n          /* Links */\n          a \x7b \n            color: #3498db; \n            text-decoration: none;\n            font-weight: 500;\n          \x7d\n          \n          a:hover \x7b \n            text-decoration: underline; \n            color: #2980b9;\n          \x7d\n          \n          /* Quebras de página controladas */\n          h1 \x7b\n            page-break-before: always;\n          \x7d\n          \n          h1:first-child \x7b\n            page-break-before: avoid;\n          \x7d\n          \n          h2, h3, h4, h5, h6 \x7b\n            page-break-after: avoid;\n          \x7d\n          \n          table, pre, blockquote \x7b\n            page-break-inside: avoid;\n          \x7d\n          \n          /* Estilo para elementos órfãos e viúvas */\n          p \x7b\n            orphans: 3;\n            widows: 3;\n          \x7d\n          \n          /* Separadores */\n          hr \x7b\n            border: none;\n            height: 2px;\n            background: linear-gradient(to right, #3498db, #2980b9);\n            margin: 2em 0;\n            page-break-after: avoid;\n          \x7d\n        </style>\n      </head>\n      <body>\n        "
    ++ htmlContent
    ++ "\n      </body>\n    </html>\n  "

/-- The HTML document composed around the parsed Markdown body
(lines 208-418), parameterized by the selected format. -/
def composeHtml (format : PaperFormat) (htmlContent : String) : String :=
  htmlTemplateBefore format
    ++ pageSizeMarginDirective format
    ++ htmlTemplateAfter format htmlContent

/-! ## The browser-driving tail of `convertMarkdownToPdf` (lines 420-445) -/

/-- Events of the puppeteer session. -/
inductive BrowserEvent where
  | launch
  | newPage
  | setContent
  | printPdf
  | closeBrowser
deriving DecidableEq

/-- The awaited browser calls of lines 420-445 with failure injection:
`contentOk` / `pdfOk` say whether `page.setContent` / `page.pdf` resolve.
A rejected await aborts the function at that point -- there is no
`try`/`finally` around these calls -- so the statements after it, including
`browser.close()` (line 443), do not run.  Returns the trace of calls that
were started and whether the conversion succeeded. -/
def renderTrace (contentOk pdfOk : Bool) : List BrowserEvent × Bool :=
  if !contentOk then
    ([.launch, .newPage, .setContent], false)
  else if !pdfOk then
    ([.launch, .newPage, .setContent, .printPdf], false)
  else
    ([.launch, .newPage, .setContent, .printPdf, .closeBrowser], true)

/-- The margin object passed to `page.pdf` (lines 433-438). -/
structure PdfMargins where
  top : String
  bottom : String
  left : String
  right : String
deriving DecidableEq

/-- The options passed to `page.pdf` (lines 428-441). -/
structure PdfOptions where
  format : PaperFormat
  landscape : Bool
  printBackground : Bool
  margin : PdfMargins
  preferCSSPageSize : Bool
  displayHeaderFooter : Bool

/-- The `page.pdf` call of lines 428-441. -/
def pdfOptions (format : PaperFormat) : PdfOptions :=
  let config := formatConfigs format
  { format := format
    landscape := false
    printBackground := true
    margin :=
      { top := config.margin, bottom := config.margin
        left := config.margin, right := config.margin }
    preferCSSPageSize := true
    displayHeaderFooter := false }

/-! ## `convertMarkdownToPdf` (lines 175-446), assembled -/

/-- The observable outcome of one `convertMarkdownToPdf` call. -/
structure ConvertOutcome where
  missingInput : Bool
  outputFileName : String
  inlined : String
  html : String
  events : List BrowserEvent
  ok : Bool

/-- `convertMarkdownToPdf` (lines 175-446).  `inputContent` is
`fs.readFileSync(inputPath)` guarded by the `fs.existsSync` check of line 183
(`none` = missing input file, which logs and returns early); `parseMd` is the
external `marked.parse` collaborator; `contentOk`/`pdfOk` inject browser
failures as in `renderTrace`. -/
def convertMarkdownToPdf (inputDir : String) (fsys : FileSys) (parseMd : String → String)
    (inputContent : Option String) (fileName : String) (format : PaperFormat)
    (contentOk pdfOk : Bool) : ConvertOutcome :=
  let outName := outputFileNameFor fileName format
  match inputContent with
  | none =>
    { missingInput := true, outputFileName := outName, inlined := "", html := ""
      events := [], ok := false }
  | some markdown =>
    let inlined := inlineLocalImages fsys inputDir markdown
    let html := composeHtml format (parseMd inlined)
    let traced := renderTrace contentOk pdfOk
    { missingInput := false, outputFileName := outName, inlined := inlined, html := html
      events := traced.1, ok := traced.2 }

/-! ## Concrete file systems used as test fixtures by the claim theorems -/

/-- A file system holding one image at `/in/a.png` with the single byte 7. -/
def fsA : FileSys := fun p => if p = "/in/a.png".data then some [7] else none

/-- A file system keyed by the unusual (but regex-matchable) resolved path
`/in/x.png](./x.png`. -/
def fsSpan : FileSys := fun p => if p = "/in/x.png](./x.png".data then some [7] else none

/-- A file system holding one image at `/in/img.png` with the single byte 7. -/
def fsImg : FileSys := fun p => if p = "/in/img.png".data then some [7] else none


/-! ## Reconstruction lemmas for the regex matcher -/

/-- `l1.isPrefixOf l2` as the `<+:` relation. -/
theorem prefixOf_iff (l1 l2 : List Char) : l1.isPrefixOf l2 = true ↔ l1 <+: l2 := by
  exact List.isPrefixOf_iff_prefix


theorem tryMatchExtParen_eq {cs e rest : List Char}
    (h : tryMatchExtParen cs = some (e, rest)) :
    cs = '.' :: (e ++ ')' :: rest) ∧ e ∈ extAlts := by
  unfold tryMatchExtParen at h
  split_ifs at h with h1 h2 h3 h4 h5 <;>
    simp only [Option.some.injEq, Prod.mk.injEq] at h
  · obtain ⟨he, hr⟩ := h
    obtain ⟨t, ht⟩ := (prefixOf_iff _ _).1 h1
    subst he; subst ht
    have hd : (".png)".data ++ t).drop 5 = t := List.drop_left' (by rfl)
    rw [hd] at hr
    subst hr
    exact ⟨rfl, by decide⟩
  · obtain ⟨he, hr⟩ := h
    obtain ⟨t, ht⟩ := (prefixOf_iff _ _).1 h2
    subst he; subst ht
    have hd : (".jpg)".data ++ t).drop 5 = t := List.drop_left' (by rfl)
    rw [hd] at hr
    subst hr
    exact ⟨rfl, by decide⟩
  · obtain ⟨he, hr⟩ := h
    obtain ⟨t, ht⟩ := (prefixOf_iff _ _).1 h3
    subst he; subst ht
    have hd : (".jpeg)".data ++ t).drop 6 = t := List.drop_left' (by rfl)
    rw [hd] at hr
    subst hr
    exact ⟨rfl, by decide⟩
  · obtain ⟨he, hr⟩ := h
    obtain ⟨t, ht⟩ := (prefixOf_iff _ _).1 h4
    subst he; subst ht
    have hd : (".gif)".data ++ t).drop 5 = t := List.drop_left' (by rfl)
    rw [hd] at hr
    subst hr
    exact ⟨rfl, by decide⟩
  · obtain ⟨he, hr⟩ := h
    obtain ⟨t, ht⟩ := (prefixOf_iff _ _).1 h5
    subst he; subst ht
    have hd : (".svg)".data ++ t).drop 5 = t := List.drop_left' (by rfl)
    rw [hd] at hr
    subst hr
    exact ⟨rfl, by decide⟩

theorem tryMatchPath_eq {cs acc p e rest : List Char}
    (h : tryMatchPath cs acc = some (p, e, rest)) :
    ∃ mid, p = acc.reverse ++ (mid ++ '.' :: e) ∧
      cs = mid ++ '.' :: (e ++ ')' :: rest) ∧ e ∈ extAlts ∧
      (∀ c ∈ mid, jsDot c = true) := by
  induction cs generalizing acc with
  | nil =>
    rw [tryMatchPath] at h
    simp [tryMatchExtParen, List.isPrefixOf] at h
  | cons c cs ih =>
    rw [tryMatchPath] at h
    cases hx : tryMatchExtParen (c :: cs) with
    | some pr =>
      obtain ⟨ext, rest'⟩ := pr
      rw [hx] at h
      simp only [Option.some.injEq, Prod.mk.injEq] at h
      obtain ⟨hp, he, hr⟩ := h
      subst he; subst hr
      obtain ⟨hcs, hmem⟩ := tryMatchExtParen_eq hx
      refine ⟨[], by simpa using hp.symm, by simpa using hcs, hmem, by simp⟩
    | none =>
      rw [hx] at h
      dsimp only at h
      by_cases hdot : jsDot c = true
      · rw [if_pos hdot] at h
        obtain ⟨mid, hp, hcs, hmem, hdots⟩ := ih h
        refine ⟨c :: mid, ?_, ?_, hmem, ?_⟩
        · rw [hp]; simp
        · rw [hcs]; simp
        · intro x hx
          rcases List.mem_cons.1 hx with hx | hx
          · subst hx; exact hdot
          · exact hdots x hx
      · rw [if_neg hdot] at h
        exact Option.noConfusion h

theorem tryMatchAfterAlt_eq {cs p e rest : List Char}
    (h : tryMatchAfterAlt cs = some (p, e, rest)) :
    (∃ mid, p = '.' :: '/' :: (mid ++ '.' :: e) ∧ e ∈ extAlts) ∧
      cs = ']' :: '(' :: (p ++ ')' :: rest) := by
  unfold tryMatchAfterAlt at h
  split at h
  case _ cs' =>
    obtain ⟨mid, hp, hcs, hmem, _⟩ := tryMatchPath_eq h
    constructor
    · exact ⟨mid, by simpa using hp, hmem⟩
    · rw [hp]; simp [hcs]
  case _ =>
    exact Option.noConfusion h

theorem tryMatchAlt_eq {cs acc a p e rest : List Char}
    (h : tryMatchAlt cs acc = some (a, p, e, rest)) :
    (∃ mid, p = '.' :: '/' :: (mid ++ '.' :: e) ∧ e ∈ extAlts) ∧
      ∃ altTail, a = acc.reverse ++ altTail ∧
        cs = altTail ++ ']' :: '(' :: (p ++ ')' :: rest) := by
  induction cs generalizing acc with
  | nil =>
    rw [tryMatchAlt] at h
    simp [tryMatchAfterAlt] at h
  | cons c cs ih =>
    rw [tryMatchAlt] at h
    cases hx : tryMatchAfterAlt (c :: cs) with
    | some pr =>
      obtain ⟨p', e', rest'⟩ := pr
      rw [hx] at h
      simp only [Option.some.injEq, Prod.mk.injEq] at h
      obtain ⟨ha, hp, he, hr⟩ := h
      subst hp; subst he; subst hr
      obtain ⟨hshape, hcs⟩ := tryMatchAfterAlt_eq hx
      exact ⟨hshape, [], ha.symm ▸ by simp, hcs⟩
    | none =>
      rw [hx] at h
      dsimp only at h
      by_cases hdot : jsDot c = true
      · rw [if_pos hdot] at h
        obtain ⟨hshape, altTail, ha, hcs⟩ := ih h
        refine ⟨hshape, c :: altTail, ?_, by simp [hcs]⟩
        rw [ha]; simp
      · rw [if_neg hdot] at h
        exact Option.noConfusion h

theorem tryMatchAt_eq {cs a p e rest : List Char}
    (h : tryMatchAt cs = some (a, p, e, rest)) :
    cs = matchChars a p ++ rest ∧
      (∃ mid, p = '.' :: '/' :: (mid ++ '.' :: e) ∧ e ∈ extAlts) := by
  unfold tryMatchAt at h
  split at h
  case _ cs' =>
    obtain ⟨hshape, altTail, ha, hcs⟩ := tryMatchAlt_eq h
    simp only [List.reverse_nil, List.nil_append] at ha
    subst ha
    refine ⟨?_, hshape⟩
    rw [hcs]
    simp [matchChars]
  case _ =>
    exact Option.noConfusion h

/-! ## The chunk view agrees with the scan -/

theorem chunksJoin_map_lit (f : MdChunk → List Char) (hf : ∀ c, f (.lit c) = [c])
    (cs : List Char) : chunksJoin f (cs.map .lit) = cs := by
  induction cs with
  | nil => rfl
  | cons c cs ih => simp [chunksJoin, hf] at ih ⊢; exact ih

/-- Joining the chunks as they appeared in the input gives back the input. -/
theorem chunksJoin_orig (fuel : Nat) (cs : List Char) :
    chunksJoin chunkOrig (scanChunksF fuel cs) = cs := by
  induction fuel generalizing cs with
  | zero => exact chunksJoin_map_lit _ (fun _ => rfl) cs
  | succ fuel ih =>
    simp only [scanChunksF]
    cases hx : tryMatchAt cs with
    | some q =>
      obtain ⟨a, p, e, rest⟩ := q
      obtain ⟨hcs, -⟩ := tryMatchAt_eq hx
      simp only [chunksJoin, List.foldr_cons]
      rw [show List.foldr (fun ch acc => chunkOrig ch ++ acc) [] (scanChunksF fuel rest) =
            chunksJoin chunkOrig (scanChunksF fuel rest) from rfl, ih]
      exact (hcs ▸ rfl)
    | none =>
      cases cs with
      | nil => rfl
      | cons c cs' =>
        simp only [chunksJoin, List.foldr_cons]
        rw [show List.foldr (fun ch acc => chunkOrig ch ++ acc) [] (scanChunksF fuel cs') =
              chunksJoin chunkOrig (scanChunksF fuel cs') from rfl, ih]
        rfl

/-- The inlining scan is exactly the per-chunk output of the chunk view:
each matched reference is rewritten independently of every other chunk. -/
theorem inlineScanF_eq_chunks (fsys : FileSys) (dir : List Char) (fuel : Nat) (cs : List Char) :
    inlineScanF fsys dir fuel cs = chunksJoin (chunkOut fsys dir) (scanChunksF fuel cs) := by
  induction fuel generalizing cs with
  | zero => exact (chunksJoin_map_lit _ (fun _ => rfl) cs).symm
  | succ fuel ih =>
    simp only [inlineScanF, scanChunksF]
    cases hx : tryMatchAt cs with
    | some q =>
      obtain ⟨a, p, e, rest⟩ := q
      simp only [chunksJoin, List.foldr_cons]
      rw [ih rest]
      rfl
    | none =>
      cases cs with
      | nil => rfl
      | cons c cs' =>
        simp only [chunksJoin, List.foldr_cons]
        rw [ih cs']
        rfl

/-- Every image chunk produced by the scan is well formed: its path starts
with `./`, ends with a dot and its extension, and the extension is one of the
five allowed ones. -/
theorem scanChunks_img_wf {fuel : Nat} {cs a p e : List Char}
    (h : MdChunk.img a p e ∈ scanChunksF fuel cs) :
    ∃ mid, p = '.' :: '/' :: (mid ++ '.' :: e) ∧ e ∈ extAlts := by
  induction fuel generalizing cs with
  | zero =>
    exfalso
    simp only [scanChunksF] at h
    obtain ⟨c, -, hc⟩ := List.mem_map.1 h
    exact MdChunk.noConfusion hc
  | succ fuel ih =>
    simp only [scanChunksF] at h
    revert h
    cases hx : tryMatchAt cs with
    | some q =>
      obtain ⟨a', p', e', rest⟩ := q
      intro h
      rcases List.mem_cons.1 h with h | h
      · obtain ⟨-, hshape⟩ := tryMatchAt_eq hx
        cases h
        exact hshape
      · exact ih h
    | none =>
      cases cs with
      | nil => intro h; exact absurd h (List.not_mem_nil _)
      | cons c cs' =>
        intro h
        rcases List.mem_cons.1 h with h | h
        · exact MdChunk.noConfusion h
        · exact ih h

/-- The scan consumes at least one character per step, so any fuel of at
least the input length computes the same result; the wrapper's choice of
`cs.length` is enough. -/
theorem inlineScanF_fuel (fsys : FileSys) (dir : List Char) :
    ∀ fuel₁ fuel₂ cs, cs.length ≤ fuel₁ → cs.length ≤ fuel₂ →
      inlineScanF fsys dir fuel₁ cs = inlineScanF fsys dir fuel₂ cs := by
  intro fuel₁
  induction fuel₁ with
  | zero =>
    intro fuel₂ cs h1 _
    have : cs = [] := List.eq_nil_of_length_eq_zero (Nat.le_zero.1 h1)
    subst this
    cases fuel₂ with
    | zero => rfl
    | succ f => rfl
  | succ fuel₁ ih =>
    intro fuel₂ cs h1 h2
    cases fuel₂ with
    | zero =>
      have : cs = [] := List.eq_nil_of_length_eq_zero (Nat.le_zero.1 h2)
      subst this
      rfl
    | succ f =>
      simp only [inlineScanF]
      cases hx : tryMatchAt cs with
      | some q =>
        obtain ⟨a, p, e, rest⟩ := q
        obtain ⟨hcs, -⟩ := tryMatchAt_eq hx
        have hlt : rest.length < cs.length := by
          rw [hcs, List.length_append, matchChars]
          simp
        dsimp only
        rw [ih f rest (by omega) (by omega)]
      | none =>
        cases cs with
        | nil => rfl
        | cons c cs' =>
          simp only [List.length_cons] at h1 h2
          dsimp only
          rw [ih f cs' (by omega) (by omega)]

/-! ## The replacement inside one matched reference -/

/-- `matchChars` regrouped around the parenthesized path. -/
theorem matchChars_decomp (a p : List Char) :
    matchChars a p = ('!' :: '[' :: a ++ [']', '(']) ++ (p ++ [')']) := by
  simp [matchChars]

theorem length_altPre (a : List Char) :
    ('!' :: '[' :: a ++ [']', '(']).length = a.length + 4 := by
  simp

/-- When the first occurrence of the path inside `![alt](path)` is the
parenthesized one (index `alt.length + 4`), the JS first-occurrence
replacement rewrites exactly the parenthesized path. -/
theorem jsReplaceFirst_canonical (a p rep : List Char)
    (h : firstOccIdx p (matchChars a p) = some (a.length + 4)) :
    jsReplaceFirst (matchChars a p) p rep =
      '!' :: '[' :: a ++ ']' :: '(' :: (rep ++ [')']) := by
  unfold jsReplaceFirst
  rw [h]
  dsimp only
  rw [matchChars_decomp]
  rw [List.take_left' (length_altPre a)]
  have hdrop : (('!' :: '[' :: a ++ [']', '(']) ++ (p ++ [')'])).drop (a.length + 4 + p.length)
      = [')'] := by
    rw [show ('!' :: '[' :: a ++ [']', '(']) ++ (p ++ [')'])
          = (('!' :: '[' :: a ++ [']', '(']) ++ p) ++ [')'] by simp]
    refine List.drop_left' ?_
    simp
    omega
  rw [hdrop]
  simp

/-- `imageToBase64`, characterised: `none` exactly on read failure, otherwise
the data URI built from the aliased media type and the base64 payload. -/
theorem imageToBase64_spec (fsys : FileSys) (p : List Char) :
    imageToBase64 fsys p =
      (fsys p).map (fun bytes =>
        "data:image/".data ++ mimeExt p ++ (";base64,".data ++ b64Encode bytes)) := by
  cases h : fsys p with
  | none => simp [imageToBase64, readFileSync, h]
  | some bytes =>
    simp only [imageToBase64, readFileSync, h, Option.map_some', mimeExt]
    simp only [List.append_assoc]
    rfl

/-- The callback on a readable image: the match text with the data URI
substituted for the first occurrence of the path. -/
theorem inlineReplacer_of_read {fsys : FileSys} {dir mtch p : List Char} {bytes : List Nat}
    (h : fsys (pathResolve dir p) = some bytes) :
    inlineReplacer fsys dir mtch p =
      jsReplaceFirst mtch p
        ("data:image/".data ++ mimeExt (pathResolve dir p)
          ++ (";base64,".data ++ b64Encode bytes)) := by
  simp only [inlineReplacer]
  rw [imageToBase64_spec, h]
  rfl

/-- The callback on an unreadable image: the match is returned unchanged. -/
theorem inlineReplacer_of_fail {fsys : FileSys} {dir mtch p : List Char}
    (h : fsys (pathResolve dir p) = none) :
    inlineReplacer fsys dir mtch p = mtch := by
  simp only [inlineReplacer]
  rw [imageToBase64_spec, h]
  rfl

/-! ## Path-resolution and extension lemmas -/

theorem splitSlash_ne_nil (cs : List Char) : splitSlash cs ≠ [] := by
  cases cs with
  | nil => simp [splitSlash]
  | cons c cs =>
    simp only [splitSlash]
    split_ifs
    · simp
    · cases h : splitSlash cs <;> simp

theorem splitSlash_append (a b : List Char) :
    splitSlash (a ++ '/' :: b) = splitSlash a ++ splitSlash b := by
  induction a with
  | nil => simp [splitSlash]
  | cons c a ih =>
    by_cases hc : c = '/'
    · subst hc
      simp [splitSlash, ih]
    · simp only [List.cons_append, splitSlash, if_neg hc]
      simp only [List.append_eq]
      rw [ih]
      cases h : splitSlash a with
      | nil => exact absurd h (splitSlash_ne_nil a)
      | cons s t => simp [h]

theorem mem_splitSlash_no_slash (cs : List Char) : ∀ seg ∈ splitSlash cs, '/' ∉ seg := by
  induction cs with
  | nil =>
    intro seg h
    simp only [splitSlash, List.mem_singleton] at h
    subst h; simp
  | cons c cs ih =>
    intro seg h
    simp only [splitSlash] at h
    by_cases hc : c = '/'
    · rw [if_pos hc] at h
      rcases List.mem_cons.1 h with h | h
      · subst h; simp
      · exact ih seg h
    · rw [if_neg hc] at h
      cases hs : splitSlash cs with
      | nil => exact absurd hs (splitSlash_ne_nil cs)
      | cons s t =>
        rw [hs] at h
        rcases List.mem_cons.1 h with h | h
        · subst h
          intro hmem
          rcases List.mem_cons.1 hmem with h' | h'
          · exact hc h'.symm
          · exact (ih s (by rw [hs]; exact List.mem_cons_self s t)) h'
        · exact ih seg (by rw [hs]; exact List.mem_cons_of_mem s h)

theorem splitSlash_no_slash {cs : List Char} (h : '/' ∉ cs) : splitSlash cs = [cs] := by
  induction cs with
  | nil => rfl
  | cons c cs ih =>
    have hc : c ≠ '/' := fun he => h (he ▸ List.mem_cons_self c cs)
    simp only [splitSlash, if_neg hc]
    rw [ih (fun hm => h (List.mem_cons_of_mem c hm))]

theorem splitSlash_append_noslash (a : List Char) {b : List Char} (hb : '/' ∉ b) :
    ∃ pre last, splitSlash a = pre ++ [last] ∧ splitSlash (a ++ b) = pre ++ [last ++ b] := by
  induction a with
  | nil =>
    refine ⟨[], [], rfl, ?_⟩
    simpa using splitSlash_no_slash hb
  | cons c a ih =>
    obtain ⟨pre, last, h1, h2⟩ := ih
    by_cases hc : c = '/'
    · subst hc
      refine ⟨[] :: pre, last, ?_, ?_⟩
      · simp [splitSlash, h1]
      · simp [splitSlash, h2]
    · cases pre with
      | nil =>
        simp only [List.nil_append] at h1 h2
        refine ⟨[], c :: last, ?_, ?_⟩
        · simp [splitSlash, if_neg hc, h1]
        · simp [splitSlash, if_neg hc, h2]
      | cons q qt =>
        refine ⟨(c :: q) :: qt, last, ?_, ?_⟩
        · simp [splitSlash, if_neg hc, h1]
        · simp [splitSlash, if_neg hc, h2]

theorem resolveStep_push (st : List (List Char)) {s : List Char}
    (h0 : s ≠ []) (h1 : s ≠ ['.']) (h2 : s ≠ ['.', '.']) :
    resolveStep st s = st ++ [s] := by
  simp [resolveStep, h0, h1, h2]

theorem mem_foldl_resolveStep (segs : List (List Char)) :
    ∀ st x, x ∈ segs.foldl resolveStep st → x ∈ st ∨ x ∈ segs := by
  induction segs with
  | nil => intro st x h; exact Or.inl h
  | cons s segs ih =>
    intro st x h
    rcases ih (resolveStep st s) x h with h | h
    · unfold resolveStep at h
      split_ifs at h
      · exact Or.inl h
      · exact Or.inl h
      · exact Or.inl ((List.dropLast_sublist st).subset h)
      · rcases List.mem_append.1 h with h | h
        · exact Or.inl h
        · right
          rw [List.mem_singleton.1 h]
          exact List.mem_cons_self s segs
    · exact Or.inr (List.mem_cons_of_mem s h)

theorem splitSlash_joinSlash (segs : List (List Char)) (hne : segs ≠ [])
    (hns : ∀ seg ∈ segs, '/' ∉ seg) :
    splitSlash (joinSlash segs) = segs := by
  induction segs with
  | nil => exact absurd rfl hne
  | cons s segs ih =>
    cases segs with
    | nil =>
      exact splitSlash_no_slash (hns s (List.mem_cons_self _ _))
    | cons s2 t =>
      rw [show joinSlash (s :: s2 :: t) = s ++ '/' :: joinSlash (s2 :: t) from rfl]
      rw [splitSlash_append]
      rw [splitSlash_no_slash (hns s (List.mem_cons_self _ _)),
        ih (by simp) (fun seg h => hns seg (List.mem_cons_of_mem s h))]
      rfl

theorem getLastD_append_single (l : List (List Char)) (s d : List Char) :
    (l ++ [s]).getLastD d = s := by
  induction l with
  | nil => rfl
  | cons x l ih =>
    cases l with
    | nil => rfl
    | cons y t => exact ih

theorem takeWhile_ne_dot : ∀ xs ys : List Char, (∀ c ∈ xs, c ≠ '.') →
    (xs ++ '.' :: ys).takeWhile (fun c => c ≠ '.') = xs
  | [], ys, _ => by
    rw [List.nil_append]
    simp [List.takeWhile_cons]
  | c :: cs, ys, h => by
    have hc : c ≠ '.' := h c (List.mem_cons_self _ _)
    have ih := takeWhile_ne_dot cs ys (fun x hx => h x (List.mem_cons_of_mem c hx))
    rw [List.cons_append, List.takeWhile_cons]
    have hpc : decide (c ≠ '.') = true := decide_eq_true hc
    rw [hpc]
    simp only [if_true]
    rw [ih]

/-- `extnameChars` on a value whose basename ends in a dot and a dot-free
extension: the extension when the dot is not leading, empty otherwise. -/
theorem extname_of_basename {q : List Char} {pre e : List Char}
    (hq : basenameChars q = pre ++ '.' :: e) (he : ∀ c ∈ e, c ≠ '.') :
    extnameChars q = if pre = [] then [] else '.' :: e := by
  simp only [extnameChars]
  rw [hq]
  rw [show (pre ++ '.' :: e).reverse = e.reverse ++ '.' :: pre.reverse by simp]
  rw [takeWhile_ne_dot e.reverse pre.reverse (fun c hc => he c (List.mem_reverse.1 hc))]
  simp only [List.length_reverse, List.length_append, List.length_cons, List.reverse_reverse]
  by_cases hp : pre = []
  · subst hp
    rw [if_neg (by simp), if_pos (by simp), if_pos rfl]
  · have hplen : 0 < pre.length := List.length_pos.2 hp
    rw [if_neg (by omega), if_neg (by omega), if_neg hp]

/-- Facts about the five allowed extensions needed by the path lemmas. -/
theorem extAlts_facts {e : List Char} (h : e ∈ extAlts) :
    (∀ c ∈ e, c ≠ '.') ∧ '/' ∉ e ∧ 3 ≤ e.length := by
  simp only [extAlts, List.mem_cons, List.mem_singleton, List.not_mem_nil, or_false] at h
  rcases h with h | h | h | h | h <;> subst h <;> exact ⟨by decide, by decide, by decide⟩

/-- The basename of the resolved path is the last segment of the relative
path, whenever that segment is a real file name (not empty, `.`, or `..`). -/
theorem basename_pathResolve (dir p : List Char) {s : List Char}
    (hs : lastSegment p = s)
    (h0 : s ≠ []) (h1 : s ≠ ['.']) (h2 : s ≠ ['.', '.']) :
    basenameChars (pathResolve dir p) = s := by
  obtain ⟨pre, last, hsplit⟩ : ∃ pre last, splitSlash p = pre ++ [last] := by
    rcases List.eq_nil_or_concat (splitSlash p) with h | ⟨L, b, h⟩
    · exact absurd h (splitSlash_ne_nil p)
    · exact ⟨L, b, by simpa using h⟩
  have hlast : last = s := by
    rw [lastSegment, hsplit, getLastD_append_single] at hs
    exact hs
  rw [hlast] at hsplit
  have hsegs : splitSlash (dir ++ '/' :: p) = (splitSlash dir ++ pre) ++ [s] := by
    rw [splitSlash_append, hsplit]
    simp
  have hstack : (splitSlash (dir ++ '/' :: p)).foldl resolveStep []
      = ((splitSlash dir ++ pre).foldl resolveStep []) ++ [s] := by
    rw [hsegs, List.foldl_append]
    simp only [List.foldl_cons, List.foldl_nil]
    exact resolveStep_push _ h0 h1 h2
  have hmem : ∀ x ∈ (splitSlash (dir ++ '/' :: p)).foldl resolveStep [], '/' ∉ x := by
    intro x hx
    rcases mem_foldl_resolveStep _ [] x hx with h | h
    · exact absurd h (List.not_mem_nil x)
    · exact mem_splitSlash_no_slash _ x h
  have hne : (splitSlash (dir ++ '/' :: p)).foldl resolveStep [] ≠ [] := by
    rw [hstack]
    simp
  unfold pathResolve basenameChars
  rw [show splitSlash ('/' :: joinSlash ((splitSlash (dir ++ '/' :: p)).foldl resolveStep []))
        = [] :: splitSlash (joinSlash ((splitSlash (dir ++ '/' :: p)).foldl resolveStep []))
      by simp [splitSlash]]
  rw [splitSlash_joinSlash _ hne hmem]
  rw [hstack]
  rw [show ([] : List Char) :: (((splitSlash dir ++ pre).foldl resolveStep []) ++ [s])
        = (([] : List Char) :: ((splitSlash dir ++ pre).foldl resolveStep [])) ++ [s] by simp]
  exact getLastD_append_single _ _ _

/-- For a matched path `./mid.ext`, the extension extracted from the resolved
absolute path: the matched extension, except when the path's last segment is
the bare dot-file `.ext`, where it is empty. -/
theorem extSlice_pathResolve_matched (dir mid e : List Char) (hmem : e ∈ extAlts) :
    extSliceChars (pathResolve dir ('.' :: '/' :: (mid ++ '.' :: e)))
      = if lastSegment ('.' :: '/' :: (mid ++ '.' :: e)) = '.' :: e then [] else e := by
  obtain ⟨hdot, hslash, hlen⟩ := extAlts_facts hmem
  have hb : '/' ∉ '.' :: e := by
    intro h
    rcases List.mem_cons.1 h with h | h
    · exact absurd h.symm (by decide)
    · exact hslash h
  have hp : ('.' :: '/' :: (mid ++ '.' :: e)) = ('.' :: '/' :: mid) ++ '.' :: e := by simp
  obtain ⟨pre0, last0, hsp1, hsp2⟩ := splitSlash_append_noslash ('.' :: '/' :: mid) hb
  have hlastseg : lastSegment ('.' :: '/' :: (mid ++ '.' :: e)) = last0 ++ '.' :: e := by
    rw [lastSegment, hp, hsp2, getLastD_append_single]
  have hlen4 : 4 ≤ (last0 ++ '.' :: e).length := by
    simp only [List.length_append, List.length_cons]
    omega
  have h0 : last0 ++ '.' :: e ≠ [] := by
    intro h
    have := congrArg List.length h
    simp only [List.length_append, List.length_cons, List.length_nil] at this
    omega
  have h1 : last0 ++ '.' :: e ≠ ['.'] := by
    intro h
    have := congrArg List.length h
    simp only [List.length_append, List.length_cons, List.length_nil] at this
    omega
  have h2 : last0 ++ '.' :: e ≠ ['.', '.'] := by
    intro h
    have := congrArg List.length h
    simp only [List.length_append, List.length_cons, List.length_nil] at this
    omega
  have hbase := basename_pathResolve dir _ hlastseg h0 h1 h2
  have hext := @extname_of_basename (pathResolve dir ('.' :: '/' :: (mid ++ '.' :: e))) last0 e (by rw [hbase]) hdot
  rw [extSliceChars, hext, hlastseg]
  by_cases hl : last0 = []
  · subst hl
    rw [if_pos rfl, if_pos (by simp)]
    rfl
  · rw [if_neg hl, if_neg ?_]
    · rfl
    · intro h
      apply hl
      have := congrArg List.length h
      simp only [List.length_append, List.length_cons] at this
      have : last0.length = 0 := by omega
      exact List.eq_nil_of_length_eq_zero this

/-! ## Remaining helpers for the claim theorems -/

theorem chunksJoin_congr_lit (f g : MdChunk → List Char)
    (hfg : ∀ c, f (.lit c) = g (.lit c)) :
    ∀ l : List MdChunk, (∀ ch ∈ l, ch.isLit = true) → chunksJoin f l = chunksJoin g l := by
  intro l
  induction l with
  | nil => intro _; rfl
  | cons ch l ih =>
    intro h
    have hch := h ch (List.mem_cons_self _ _)
    cases ch with
    | img a p e => exact absurd hch (by simp [MdChunk.isLit])
    | lit c =>
      simp only [chunksJoin, List.foldr_cons] at ih ⊢
      rw [hfg c, ih (fun x hx => h x (List.mem_cons_of_mem _ hx))]

theorem endsWith_decomp {suf s : List Char} (h : endsWithChars suf s = true) :
    ∃ pre, s = pre ++ suf := by
  unfold endsWithChars at h
  obtain ⟨t, ht⟩ := (prefixOf_iff _ _).1 h
  refine ⟨t.reverse, ?_⟩
  have h2 := congrArg List.reverse ht
  simpa using h2.symm

/-- The cleanup sweep over the PDF files: it visits every file even after a
failure, removing exactly the files whose unlink does not throw. -/
theorem sweepFold_spec (u : String → Bool) (l : List String) :
    ∀ acc : List String × Nat,
      l.foldl (fun acc file => if u file then acc else (acc.1 ++ [file], acc.2 + 1)) acc
        = (acc.1 ++ l.filter (fun f => !u f), acc.2 + (l.filter (fun f => !u f)).length) := by
  induction l with
  | nil => intro acc; simp
  | cons f l ih =>
    intro acc
    simp only [List.foldl_cons]
    by_cases hu : u f = true
    · rw [if_pos hu]
      rw [ih acc]
      simp [List.filter_cons, hu]
    · rw [if_neg (by simp [hu])]
      rw [ih (acc.1 ++ [f], acc.2 + 1)]
      simp only [List.filter_cons]
      rw [show (!u f) = true by simp [hu]]
      simp only [if_pos, List.length_cons]
      rw [Prod.mk.injEq]
      exact ⟨by simp, by omega⟩

theorem contains_iff_mem (l : List String) (s : String) :
    l.contains s = true ↔ s ∈ l := by
  induction l with
  | nil => simp
  | cons a l ih =>
    simp only [List.contains_cons, Bool.or_eq_true, beq_iff_eq, List.mem_cons]
    rw [ih]

/-! ## Claim theorems -/

theorem data_append (a b : String) : (a ++ b).data = a.data ++ b.data := rfl

/-- **C5**: the inliner's output is character-for-character identical to the
input everywhere outside the matched image references: the scan decomposes
the input into chunks (literal characters and matched references) whose
original rendering joins back to the input, the output is the join of the
same chunks with only the matched references rewritten, literal chunks render
identically in both, and in particular a text whose chunks are all literal
(zero local image references) is returned unchanged. -/
theorem c5_inliner_frame (fsys : FileSys) (inputDir text : String) :
    chunksJoin chunkOrig (scanChunksF text.data.length text.data) = text.data ∧
    (inlineLocalImages fsys inputDir text).data
      = chunksJoin (chunkOut fsys inputDir.data) (scanChunksF text.data.length text.data) ∧
    (∀ c : Char, chunkOut fsys inputDir.data (.lit c) = chunkOrig (.lit c)) ∧
    ((∀ ch ∈ scanChunksF text.data.length text.data, ch.isLit = true) →
      inlineLocalImages fsys inputDir text = text) := by
  refine ⟨chunksJoin_orig _ _, ?_, fun c => rfl, ?_⟩
  · exact inlineScanF_eq_chunks _ _ _ _
  · intro hall
    unfold inlineLocalImages
    rw [inlineScanF_eq_chunks]
    rw [chunksJoin_congr_lit (chunkOut fsys inputDir.data) chunkOrig (fun c => rfl) _ hall]
    rw [chunksJoin_orig]

/-- Witness for C5 at a concrete reference-free text. -/
theorem c5_inliner_frame_witness :
    (∀ ch ∈ scanChunksF ("hello *md*").data.length ("hello *md*").data, ch.isLit = true) ∧
    inlineLocalImages (fun _ => none) "/in" "hello *md*" = "hello *md*" :=
  ⟨by decide, (c5_inliner_frame (fun _ => none) "/in" "hello *md*").2.2.2 (by decide)⟩

/-- **C2**: a failed image read leaves that reference byte-identical to the
input (the callback returns the match unchanged) and cannot abort the
document: the whole pass is the independent per-chunk rewrite of the scan's
chunks, so every other matched reference is still processed exactly as it
would be on its own. -/
theorem c2_unreadable_ref (fsys : FileSys) (dir alt path : List Char)
    (hfail : fsys (pathResolve dir path) = none) :
    inlineReplacer fsys dir (matchChars alt path) path = matchChars alt path ∧
    ∀ text : String, (inlineLocalImages fsys (String.mk dir) text).data
      = chunksJoin (chunkOut fsys dir) (scanChunksF text.data.length text.data) := by
  refine ⟨inlineReplacer_of_fail hfail, fun text => ?_⟩
  exact inlineScanF_eq_chunks _ _ _ _

/-- Witness for C2 at a concrete unreadable reference. -/
theorem c2_unreadable_ref_witness :
    inlineReplacer (fun _ => none) "/in".data (matchChars "x".data "./a.png".data) "./a.png".data
      = matchChars "x".data "./a.png".data :=
  (c2_unreadable_ref (fun _ => none) "/in".data "x".data "./a.png".data rfl).1

/-- **C10**: `imageToBase64` is total with an optional result: a thrown read
error is caught and yields `null` (`none`), and otherwise the result is a
`data:<media type>;base64,<payload>` string; no exception reaches the caller,
so the inlining pass cannot abort a document through a file read. -/
theorem c10_imageToBase64_total (fsys : FileSys) (p : List Char) :
    (readFileSync fsys p = Except.error () → imageToBase64 fsys p = none) ∧
    (imageToBase64 fsys p = none ∨
      ∃ bytes, fsys p = some bytes ∧
        imageToBase64 fsys p
          = some ("data:image/".data ++ mimeExt p ++ (";base64,".data ++ b64Encode bytes))) := by
  cases h : fsys p with
  | none =>
    refine ⟨fun _ => ?_, Or.inl ?_⟩ <;> rw [imageToBase64_spec, h] <;> rfl
  | some bytes =>
    constructor
    · intro herr
      simp only [readFileSync, h] at herr
      exact Except.noConfusion herr
    · exact Or.inr ⟨bytes, rfl, by rw [imageToBase64_spec, h]; rfl⟩

/-- Witness for C10 at a concrete failing read. -/
theorem c10_imageToBase64_total_witness :
    imageToBase64 (fun _ => none) "/in/a.png".data = none :=
  (c10_imageToBase64_total (fun _ => none) "/in/a.png".data).1 rfl

/-- **C6**: for every source filename ending in `.md` and every format, the
derived output name is the source name with its `.md` suffix replaced by
`.<format lowercase>.pdf`; the derivation is a pure function of the filename
and the format. -/
theorem c6_output_filename (fileName : String) (format : PaperFormat)
    (h : endsWithChars ".md".data fileName.data = true) :
    ∃ stem, fileName.data = stem ++ ".md".data ∧
      (outputFileNameFor fileName format).data
        = stem ++ ('.' :: ((formatLower format).data ++ ".pdf".data)) := by
  obtain ⟨stem, hstem⟩ := endsWith_decomp h
  refine ⟨stem, hstem, ?_⟩
  unfold outputFileNameFor replaceMdSuffix
  rw [if_pos h]
  show (fileName.data.take (fileName.data.length - 3)
      ++ ('.' :: (formatLower format).data ++ ".pdf".data)) = _
  rw [hstem]
  have hlen : stem.length = (stem ++ ".md".data).length - 3 := by
    simp
  rw [List.take_left' hlen]
  simp

/-- Witness for C6: `a.md` with A4 yields `a.a4.pdf`. -/
theorem c6_output_filename_witness :
    ∃ stem, ("a.md" : String).data = stem ++ ".md".data ∧
      (outputFileNameFor "a.md" PaperFormat.A4).data
        = stem ++ ('.' :: ((formatLower PaperFormat.A4).data ++ ".pdf".data)) :=
  c6_output_filename "a.md" PaperFormat.A4 (by decide)

/-- **C7**: the pre-run cleanup creates the output directory when it is
absent; when it exists, every file not ending in `.pdf` survives untouched,
every `.pdf` file whose unlink does not throw is removed (regardless of
failures on other files — the sweep continues), only `.pdf` files are ever
removed, and with no failures the removed count is exactly the number of
`.pdf` files. -/
theorem c7_clean_output_dir (dirExists : Bool) (files : List String)
    (unlinkFails : String → Bool) :
    (dirExists = false →
      (cleanOutputDir dirExists files unlinkFails).createdDir = true ∧
      (cleanOutputDir dirExists files unlinkFails).remaining = []) ∧
    (dirExists = true →
      (∀ f ∈ files, endsWithChars ".pdf".data f.data = false →
        f ∈ (cleanOutputDir dirExists files unlinkFails).remaining) ∧
      (∀ f ∈ files, endsWithChars ".pdf".data f.data = true → unlinkFails f = false →
        f ∉ (cleanOutputDir dirExists files unlinkFails).remaining) ∧
      (∀ f ∈ files, f ∉ (cleanOutputDir dirExists files unlinkFails).remaining →
        endsWithChars ".pdf".data f.data = true) ∧
      ((∀ f, unlinkFails f = false) →
        (cleanOutputDir dirExists files unlinkFails).removedCount
          = (files.filter (fun f => endsWithChars ".pdf".data f.data)).length)) := by
  constructor
  · intro h
    subst h
    exact ⟨rfl, rfl⟩
  · intro h
    subst h
    by_cases hempty : (files.filter (fun f => endsWithChars ".pdf".data f.data)).length = 0
    · have hnil : files.filter (fun f => endsWithChars ".pdf".data f.data) = [] :=
        List.eq_nil_of_length_eq_zero hempty
      have hres : cleanOutputDir true files unlinkFails
          = { createdDir := false, remaining := files, removedCount := 0 } := by
        simp only [cleanOutputDir, Bool.not_true, Bool.false_eq_true, if_false, hempty, if_pos]
      rw [hres]
      refine ⟨fun f hf _ => hf, ?_, fun f hf hnot => absurd hf hnot, fun _ => by rw [hnil]; rfl⟩
      intro f hf hpdf _ _
      have : f ∈ files.filter (fun f => endsWithChars ".pdf".data f.data) :=
        List.mem_filter.2 ⟨hf, hpdf⟩
      rw [hnil] at this
      exact List.not_mem_nil f this
    · have hswept := sweepFold_spec unlinkFails
        (files.filter (fun f => endsWithChars ".pdf".data f.data)) ([], 0)
      have hres : cleanOutputDir true files unlinkFails
          = { createdDir := false
              remaining := files.filter (fun f =>
                !((files.filter (fun f => endsWithChars ".pdf".data f.data)).filter
                    (fun f => !unlinkFails f)).contains f)
              removedCount := ((files.filter (fun f => endsWithChars ".pdf".data f.data)).filter
                  (fun f => !unlinkFails f)).length } := by
        simp only [cleanOutputDir, Bool.not_true, Bool.false_eq_true, if_false, if_neg hempty,
          hswept, List.nil_append, Nat.zero_add]
      rw [hres]
      have hA : ∀ f ∈ files, endsWithChars ".pdf".data f.data = false →
          f ∈ files.filter (fun f =>
            !((files.filter (fun f => endsWithChars ".pdf".data f.data)).filter
                (fun f => !unlinkFails f)).contains f) := by
        intro f hf hnot
        have hnotin : f ∉ (files.filter (fun f => endsWithChars ".pdf".data f.data)).filter
            (fun f => !unlinkFails f) := by
          intro hin
          have h1 := List.mem_filter.1 hin
          have h2 := List.mem_filter.1 h1.1
          rw [h2.2] at hnot
          exact Bool.noConfusion hnot
        apply List.mem_filter.2
        refine ⟨hf, ?_⟩
        cases hc : ((files.filter (fun f => endsWithChars ".pdf".data f.data)).filter
            (fun f => !unlinkFails f)).contains f
        · rfl
        · exact absurd ((contains_iff_mem _ _).1 hc) hnotin
      refine ⟨hA, ?_, ?_, ?_⟩
      · intro f hf hpdf hok hmem
        have hbang := (List.mem_filter.1 hmem).2
        have hin : f ∈ (files.filter (fun f => endsWithChars ".pdf".data f.data)).filter
            (fun f => !unlinkFails f) :=
          List.mem_filter.2 ⟨List.mem_filter.2 ⟨hf, hpdf⟩, by rw [hok]; rfl⟩
        rw [(contains_iff_mem _ _).2 hin] at hbang
        exact Bool.noConfusion hbang
      · intro f hf hnotmem
        cases hpdf : endsWithChars ".pdf".data f.data
        · exact absurd (hA f hf hpdf) hnotmem
        · rfl
      · intro hall
        have hrem : (files.filter (fun f => endsWithChars ".pdf".data f.data)).filter
            (fun f => !unlinkFails f) = files.filter (fun f => endsWithChars ".pdf".data f.data) := by
          apply List.filter_eq_self.2
          intro a _
          rw [hall a]
          rfl
        rw [hrem]

/-- Witness for C7 on a concrete directory with one failing deletion. -/
theorem c7_clean_output_dir_witness :
    ("b.txt" ∈ (cleanOutputDir true ["a.pdf", "b.txt", "c.pdf"]
        (fun f => f == "c.pdf")).remaining) ∧
    ("a.pdf" ∉ (cleanOutputDir true ["a.pdf", "b.txt", "c.pdf"]
        (fun f => f == "c.pdf")).remaining) := by
  have h := (c7_clean_output_dir true ["a.pdf", "b.txt", "c.pdf"]
    (fun f => f == "c.pdf")).2 rfl
  exact ⟨h.1 "b.txt" (by decide) (by decide), h.2.1 "a.pdf" (by decide) (by decide) (by decide)⟩

/-- **C8**: for each format the composed HTML contains the `@page` directive
`size: <format> portrait` together with that format's configured margin as
the single (hence uniform) page margin; the explicit `page.pdf` margins carry
the same value on all four sides; and the directive is a deterministic, pure
function of the format that is pairwise distinct across the four formats. -/
theorem c8_page_directive (format : PaperFormat) (body : String) :
    (∃ pre post : List Char, (composeHtml format body).data
        = pre ++ ((pageSizeMarginDirective format).data ++ post)) ∧
    pageSizeMarginDirective format
      = "size: " ++ formatName format ++ " portrait;\n            margin: "
          ++ (formatConfigs format).margin ++ ";" ∧
    (pdfOptions format).margin.top = (formatConfigs format).margin ∧
    (pdfOptions format).margin.bottom = (formatConfigs format).margin ∧
    (pdfOptions format).margin.left = (formatConfigs format).margin ∧
    (pdfOptions format).margin.right = (formatConfigs format).margin ∧
    (∀ g : PaperFormat, pageSizeMarginDirective format = pageSizeMarginDirective g →
      format = g) := by
  refine ⟨⟨(htmlTemplateBefore format).data, (htmlTemplateAfter format body).data, ?_⟩,
    rfl, rfl, rfl, rfl, rfl, ?_⟩
  · simp only [composeHtml, data_append, List.append_assoc]
  · intro g hg
    cases format <;> cases g <;> first | rfl | exact absurd hg (by decide)

/-- Witness for C8: A3 and A4 share a margin but still get distinct
directives. -/
theorem c8_page_directive_witness :
    ¬ pageSizeMarginDirective PaperFormat.A3 = pageSizeMarginDirective PaperFormat.A4 :=
  fun h => PaperFormat.noConfusion
    ((c8_page_directive PaperFormat.A3 "x").2.2.2.2.2.2 PaperFormat.A4 h)

/-- **C3 (counterexample)**: with content loading succeeding and PDF printing
failing, the conversion launches a browser but never reaches
`browser.close()` (line 443 runs only after a successful `page.pdf`), so the
browser is not closed on every exit path. -/
theorem c3_browser_close_cex :
    BrowserEvent.launch ∈ (renderTrace true false).1 ∧
    BrowserEvent.closeBrowser ∉ (renderTrace true false).1 ∧
    (renderTrace true false).2 = false := by decide

/-- **C3 (amended)**: the browser launched for a document is closed exactly
on the fully successful path; when content loading or PDF printing fails, the
close call is never executed (there is no try/finally around lines 420-443)
and the failure propagates; the assembled `convertMarkdownToPdf` emits
exactly this event trace whenever the input file exists. -/
theorem c3_browser_close_iff (contentOk pdfOk : Bool) :
    (BrowserEvent.closeBrowser ∈ (renderTrace contentOk pdfOk).1
      ↔ contentOk = true ∧ pdfOk = true) ∧
    BrowserEvent.launch ∈ (renderTrace contentOk pdfOk).1 ∧
    ((renderTrace contentOk pdfOk).2 = true ↔ contentOk = true ∧ pdfOk = true) ∧
    (∀ (inputDir : String) (fsys : FileSys) (parseMd : String → String)
        (md fileName : String) (format : PaperFormat),
      (convertMarkdownToPdf inputDir fsys parseMd (some md) fileName format
          contentOk pdfOk).events
        = (renderTrace contentOk pdfOk).1) := by
  refine ⟨?_, ?_, ?_, fun _ _ _ _ _ _ => rfl⟩ <;> cases contentOk <;> cases pdfOk <;> decide

/-- **C4 (counterexample)**: `["--help", "--format=A9"]` contains a
`--format=` flag with an invalid value, but `main` prints the usage text and
returns before any format parsing, so nothing is logged about the invalid
value and no format (default or otherwise) is selected. -/
theorem c4_invalid_format_cex :
    (∃ a, ["--help", "--format=A9"].find? (fun arg => "--format=".data.isPrefixOf arg.data)
        = some a ∧
      formatOfKey (String.mk ((splitEqSecond a.data).map asciiUpper)) = none) ∧
    mainFormatPhase ["--help", "--format=A9"] "" = MainOutcome.helpShown :=
  ⟨⟨"--format=A9", by decide, by decide⟩, by decide⟩

/-- **C4 (amended)**: for every argument list carrying a `--format=` flag
with an invalid value that does not also request help, `getFormatFromArgs`
logs the invalid-format warning and returns null, and `main` continues into
the interactive prompt: every possible answer yields one of the four
supported formats (never a crash), the default empty answer yielding A4. -/
theorem c4_invalid_format_fallback (args : List String) (answer : String) (a : String)
    (hhelp : helpRequested args = false)
    (hfind : args.find? (fun arg => "--format=".data.isPrefixOf arg.data) = some a)
    (hbad : formatOfKey (String.mk ((splitEqSecond a.data).map asciiUpper)) = none) :
    getFormatFromArgs args = (none, true) ∧
    mainFormatPhase args answer
      = MainOutcome.proceeding (promptForFormat answer).1 true ∧
    ((promptForFormat answer).1 = PaperFormat.A2 ∨ (promptForFormat answer).1 = PaperFormat.A3 ∨
      (promptForFormat answer).1 = PaperFormat.A4 ∨ (promptForFormat answer).1 = PaperFormat.A5) ∧
    (jsTrim answer.data = [] → (promptForFormat answer).1 = PaperFormat.A4) := by
  have hcont : validFormatKeys.contains (String.mk ((splitEqSecond a.data).map asciiUpper))
      = false := by
    cases hc : validFormatKeys.contains (String.mk ((splitEqSecond a.data).map asciiUpper))
    · rfl
    · exfalso
      have hmem := (contains_iff_mem _ _).1 hc
      simp only [validFormatKeys, List.mem_cons, List.not_mem_nil, or_false] at hmem
      rcases hmem with h | h | h | h <;> rw [h] at hbad <;> exact absurd hbad (by decide)
  have hkey : getFormatFromArgs args = (none, true) := by
    simp only [getFormatFromArgs, hfind]
    rw [if_neg (fun hc => by rw [hcont] at hc; exact Bool.noConfusion hc)]
  refine ⟨hkey, ?_, ?_, ?_⟩
  · simp [mainFormatPhase, hhelp, hkey]
  · cases hpf : promptForFormat answer with
    | mk f w =>
      simp only [promptForFormat] at hpf
      split_ifs at hpf <;> (cases hpf; simp)
  · intro h
    simp only [promptForFormat, h, if_pos]
    decide

/-- Witness for C4 at the concrete invalid flag `--format=A9`. -/
theorem c4_invalid_format_fallback_witness :
    getFormatFromArgs ["--format=A9"] = (none, true) ∧
    mainFormatPhase ["--format=A9"] ""
      = MainOutcome.proceeding (promptForFormat "").1 true ∧
    ((promptForFormat "").1 = PaperFormat.A2 ∨ (promptForFormat "").1 = PaperFormat.A3 ∨
      (promptForFormat "").1 = PaperFormat.A4 ∨ (promptForFormat "").1 = PaperFormat.A5) ∧
    (jsTrim ("" : String).data = [] → (promptForFormat "").1 = PaperFormat.A4) :=
  c4_invalid_format_fallback ["--format=A9"] "" "--format=A9" (by decide) (by decide) (by decide)

/-- **C9 (counterexample)**: in `![./x.png](./x.png](./x.png)` the scan
matches the whole text as one reference with alt `./x.png` and path
`./x.png](./x.png`; the alt does not contain the path, yet the replacement
does not produce `![alt](<data-uri>)`: the path's first occurrence starts at
index 2 inside the alt (spanning into the parenthesized region), so the
parenthesized relative path `(./x.png)` survives. -/
theorem c9_first_occurrence_cex :
    scanChunksF ("![./x.png](./x.png](./x.png)").data.length
        ("![./x.png](./x.png](./x.png)").data
      = [MdChunk.img "./x.png".data "./x.png](./x.png".data "png".data] ∧
    ¬ ("./x.png](./x.png".data <:+: "./x.png".data) ∧
    fsSpan (pathResolve "/in".data "./x.png](./x.png".data) = some [7] ∧
    inlineLocalImages fsSpan "/in" "![./x.png](./x.png](./x.png)"
      = "![data:image/png;base64,Bw==](./x.png)" ∧
    inlineLocalImages fsSpan "/in" "![./x.png](./x.png](./x.png)"
      ≠ "![./x.png](data:image/png;base64,Bw==)" :=
  ⟨by decide, by decide, by decide, by decide, by decide⟩

/-- **C9 (amended)**: a successful inlining substitutes the data URI for the
first occurrence of the path string inside the matched text `![alt](path)`;
when that first occurrence is the parenthesized one (index `alt.length + 4`)
the result is exactly `![alt](<data-uri>)`; when it lies earlier — e.g. when
the alt text contains the path, as in `![./a.png](./a.png)` — the
substitution lands there and the parenthesized relative path remains. -/
theorem c9_first_occurrence (fsys : FileSys) (dir a p : List Char) (bytes : List Nat)
    (hread : fsys (pathResolve dir p) = some bytes) :
    (inlineReplacer fsys dir (matchChars a p) p
      = jsReplaceFirst (matchChars a p) p
          ("data:image/".data ++ mimeExt (pathResolve dir p)
            ++ (";base64,".data ++ b64Encode bytes))) ∧
    (firstOccIdx p (matchChars a p) = some (a.length + 4) →
      inlineReplacer fsys dir (matchChars a p) p
        = '!' :: '[' :: a ++ ']' :: '(' ::
            (("data:image/".data ++ mimeExt (pathResolve dir p)
              ++ (";base64,".data ++ b64Encode bytes)) ++ [')'])) ∧
    firstOccIdx "./a.png".data (matchChars "./a.png".data "./a.png".data) = some 2 ∧
    inlineReplacer fsA "/in".data (matchChars "./a.png".data "./a.png".data) "./a.png".data
      = "![data:image/png;base64,Bw==](./a.png)".data := by
  refine ⟨inlineReplacer_of_read hread, fun hocc => ?_, by decide, by decide⟩
  rw [inlineReplacer_of_read hread, jsReplaceFirst_canonical _ _ _ hocc]

/-- Witness for the amended C9 at a concrete fully-inlined reference. -/
theorem c9_first_occurrence_witness :
    inlineReplacer fsImg "/in".data (matchChars "x".data "./img.png".data) "./img.png".data
      = '!' :: '[' :: "x".data ++ ']' :: '(' ::
          (("data:image/".data ++ mimeExt (pathResolve "/in".data "./img.png".data)
            ++ (";base64,".data ++ b64Encode [7])) ++ [')']) :=
  (c9_first_occurrence fsImg "/in".data "x".data "./img.png".data [7] (by decide)).2.1
    (by decide)

/-- **C1 (counterexample)**: in `![./a.png](./a.png)` the referenced file is
resolvable and readable, yet the output for the reference retains the
parenthesized relative path `(./a.png)`: the data URI replaced the first
occurrence of the path, which lies in the alt text, refuting "no remaining
relative path for that reference". -/
theorem c1_media_type_cex :
    fsA (pathResolve "/in".data "./a.png".data) = some [7] ∧
    scanChunksF ("![./a.png](./a.png)").data.length ("![./a.png](./a.png)").data
      = [MdChunk.img "./a.png".data "./a.png".data "png".data] ∧
    inlineLocalImages fsA "/in" "![./a.png](./a.png)"
      = "![data:image/png;base64,Bw==](./a.png)" ∧
    ("(./a.png)").data <:+: (inlineLocalImages fsA "/in" "![./a.png](./a.png)").data :=
  ⟨by decide, by decide, by decide, by decide⟩

/-- **C1 (amended)**: for every reference matched by the scan whose file is
readable and whose path first occurs in the matched text at its parenthesized
position, the output for that reference is exactly `![alt](<data-uri>)` — no
relative path remains — and the data URI's media type is `image/jpeg` when
the extension is `jpg` and `image/<extension>` otherwise, except that a path
whose final segment is the bare dot-file `.<extension>` yields the degenerate
empty media type `image/`. -/
theorem c1_inline_readable (fsys : FileSys) (dir : List Char) (text : String)
    (a p e : List Char) (bytes : List Nat)
    (hchunk : MdChunk.img a p e ∈ scanChunksF text.data.length text.data)
    (hread : fsys (pathResolve dir p) = some bytes)
    (hocc : firstOccIdx p (matchChars a p) = some (a.length + 4)) :
    chunkOut fsys dir (MdChunk.img a p e)
      = '!' :: '[' :: a ++ ']' :: '(' ::
          (("data:image/".data ++ mimeExt (pathResolve dir p)
            ++ (";base64,".data ++ b64Encode bytes)) ++ [')']) ∧
    (lastSegment p ≠ '.' :: e →
      mimeExt (pathResolve dir p) = (if e = "jpg".data then "jpeg".data else e)) ∧
    (lastSegment p = '.' :: e → mimeExt (pathResolve dir p) = []) := by
  obtain ⟨mid, hp, hmem⟩ := scanChunks_img_wf hchunk
  refine ⟨?_, ?_, ?_⟩
  · show inlineReplacer fsys dir (matchChars a p) p = _
    rw [inlineReplacer_of_read hread, jsReplaceFirst_canonical _ _ _ hocc]
  · subst hp
    intro hne
    have hx := extSlice_pathResolve_matched dir mid e hmem
    rw [if_neg hne] at hx
    unfold mimeExt
    rw [hx]
  · subst hp
    intro heq
    have hx := extSlice_pathResolve_matched dir mid e hmem
    rw [if_pos heq] at hx
    unfold mimeExt
    rw [hx]
    rw [if_neg (by decide)]

/-- Witness for the amended C1 at a concrete matched, readable reference. -/
theorem c1_inline_readable_witness :
    chunkOut fsImg "/in".data (MdChunk.img "x".data "./img.png".data "png".data)
      = '!' :: '[' :: "x".data ++ ']' :: '(' ::
          (("data:image/".data ++ mimeExt (pathResolve "/in".data "./img.png".data)
            ++ (";base64,".data ++ b64Encode [7])) ++ [')']) ∧
    (lastSegment "./img.png".data ≠ '.' :: "png".data →
      mimeExt (pathResolve "/in".data "./img.png".data)
        = (if "png".data = "jpg".data then "jpeg".data else "png".data)) ∧
    (lastSegment "./img.png".data = '.' :: "png".data →
      mimeExt (pathResolve "/in".data "./img.png".data) = []) :=
  c1_inline_readable fsImg "/in".data "![x](./img.png)" "x".data "./img.png".data "png".data
    [7] (by decide) (by decide) (by decide)

end MarkdownPdf
